import Mathlib

/-!
# FreeRTOS-Kernel, `portable/GCC/c_ucontext/portmacro.h`

A shallow embedding of the port macros of the `c_ucontext` port and the
properties of the ready-priority bitmap, `portMAX_DELAY`, the critical-section
and lock macros, and the build-time configuration checks.

Machine integers are natural numbers (or integers) reduced modulo `2 ^ width`
wherever C converts or wraps them.
-/

namespace PortMacro

/-! ## Integer widths -/

/-- Width in bits of `int` and `unsigned int`.  The header's
`31U - __builtin_clz( x )` is written for a 32-bit `unsigned int`. -/
def INT_BITS : Nat := 32

/-- Width in bits of `UBaseType_t`: `typedef unsigned char UBaseType_t;`. -/
def UBaseType_t_BITS : Nat := 8

/-- Widths the header does not fix itself: that of `unsigned long` (the type
of the literal `1UL`), and those of the unsigned lvalues the caller passes as
`uxReadyPriorities` and `uxTopPriority`. -/
structure Target where
  /-- bits of `unsigned long` -/
  ulongBits : Nat
  /-- bits of the unsigned type of the lvalue `uxReadyPriorities` -/
  bitmapBits : Nat
  /-- bits of the unsigned type of the lvalue `uxTopPriority` -/
  topBits : Nat
deriving DecidableEq, Repr

/-- The port's own typing on an LP64 host: both kernel variables are
`UBaseType_t`. -/
def portTarget : Target := ⟨64, UBaseType_t_BITS, UBaseType_t_BITS⟩

/-- A target whose bitmap and top-priority variables are 32-bit words. -/
def wordTarget : Target := ⟨64, 32, 32⟩

/-! ## Ready-priority bitmap macros -/

/-- The value of `1UL << uxPriority` in `unsigned long`.  (A shift count of
`ulongBits` or more is undefined in C; the properties below use counts under 32.) -/
def oneULShl (T : Target) (uxPriority : Nat) : Nat :=
  (1 <<< uxPriority) % 2 ^ T.ulongBits

/-- The value of `~( 1UL << uxPriority )` in `unsigned long`. -/
def notOneULShl (T : Target) (uxPriority : Nat) : Nat :=
  2 ^ T.ulongBits - 1 - oneULShl T uxPriority

/-- Macro `portRECORD_READY_PRIORITY( uxPriority, uxReadyPriorities )`:
`( uxReadyPriorities ) |= ( 1UL << ( uxPriority ) )`.
The result is the value stored back into the bitmap lvalue. -/
def portRECORD_READY_PRIORITY (T : Target) (uxPriority uxReadyPriorities : Nat) : Nat :=
  (uxReadyPriorities ||| oneULShl T uxPriority) % 2 ^ T.bitmapBits

/-- Macro `portRESET_READY_PRIORITY( uxPriority, uxReadyPriorities )`:
`( uxReadyPriorities ) &= ~( 1UL << ( uxPriority ) )`. -/
def portRESET_READY_PRIORITY (T : Target) (uxPriority uxReadyPriorities : Nat) : Nat :=
  (uxReadyPriorities &&& notOneULShl T uxPriority) % 2 ^ T.bitmapBits

/-- Leading zero bits of `x` among bit positions `n-1, ..., 0`. -/
def clzFrom : Nat → Nat → Nat
  | 0, _ => 0
  | n + 1, x => if x.testBit n then 0 else clzFrom n x + 1

/-- GCC's `__builtin_clz( unsigned int x )`: the number of leading 0-bits of
`x`, starting at the most significant bit position; the result is undefined
(`none`) when `x` is 0.  The argument is converted to `unsigned int`. -/
def builtin_clz (x : Nat) : Option Nat :=
  if x % 2 ^ INT_BITS = 0 then none else some (clzFrom INT_BITS (x % 2 ^ INT_BITS))

/-- Macro `portGET_HIGHEST_PRIORITY( uxTopPriority, uxReadyPriorities )`:
`uxTopPriority = ( 31U - __builtin_clz( ( uxReadyPriorities ) ) )`.
The subtraction is in `unsigned int`; the result is the value stored in
`uxTopPriority`, `none` when the builtin's result is undefined. -/
def portGET_HIGHEST_PRIORITY (T : Target) (uxReadyPriorities : Nat) : Option Nat :=
  (builtin_clz uxReadyPriorities).map
    fun c => ((31 + 2 ^ INT_BITS - c % 2 ^ INT_BITS) % 2 ^ INT_BITS) % 2 ^ T.topBits

/-- One call of a bitmap macro. -/
inductive ReadyOp where
  /-- Call `portRECORD_READY_PRIORITY( p, bitmap )`. -/
  | record (p : Nat)
  /-- Call `portRESET_READY_PRIORITY( p, bitmap )`. -/
  | reset (p : Nat)
deriving DecidableEq, Repr

/-- The priority a call addresses. -/
def ReadyOp.priority : ReadyOp → Nat
  | .record p => p
  | .reset p => p

/-- The bitmap after one call. -/
def ReadyOp.apply (T : Target) : ReadyOp → Nat → Nat
  | .record p, b => portRECORD_READY_PRIORITY T p b
  | .reset p, b => portRESET_READY_PRIORITY T p b

/-- The bitmap after a sequence of calls, first call first. -/
def runOps (T : Target) (ops : List ReadyOp) (b : Nat) : Nat :=
  ops.foldl (fun acc op => op.apply T acc) b

/-- The calls of `ops` that address priority `i`, in order. -/
def opsOn (i : Nat) (ops : List ReadyOp) : List ReadyOp :=
  ops.filter fun op => decide (op.priority = i)

/-- The last call of `ops` that addresses priority `i`, if there is one. -/
def lastOp (i : Nat) (ops : List ReadyOp) : Option ReadyOp :=
  (opsOn i ops).getLast?

/-- Priority `i` is currently recorded: the last call on it was a record. -/
def currentlyRecorded (i : Nat) (ops : List ReadyOp) : Prop :=
  lastOp i ops = some (ReadyOp.record i)

instance (i : Nat) (ops : List ReadyOp) : Decidable (currentlyRecorded i ops) :=
  inferInstanceAs (Decidable (lastOp i ops = some (ReadyOp.record i)))

/-! ## C integer types, conversions and `portMAX_DELAY` -/

/-- An integer type of C: signedness and width. -/
structure CIntType where
  /-- whether the type is signed -/
  isSigned : Bool
  /-- width in bits -/
  bits : Nat
deriving DecidableEq, Repr

/-- The type `int`. -/
def c_int : CIntType := ⟨true, INT_BITS⟩
/-- The type `unsigned int`. -/
def c_uint : CIntType := ⟨false, INT_BITS⟩
/-- The type `uint16_t`. -/
def uint16_t : CIntType := ⟨false, 16⟩
/-- The type `uint32_t`. -/
def uint32_t : CIntType := ⟨false, 32⟩
/-- The type `uint64_t`. -/
def uint64_t : CIntType := ⟨false, 64⟩

/-- A C value: its type and its mathematical value. -/
structure CValue where
  /-- the type of the expression -/
  ty : CIntType
  /-- the value, within the range of `ty` -/
  val : Int
deriving DecidableEq, Repr

/-- Conversion of a value to type `t` (C11 6.3.1.3): modulo `2 ^ bits` for an
unsigned type, two's-complement wrapping (GCC) for a signed one. -/
def convertTo (t : CIntType) (v : Int) : Int :=
  if t.isSigned then (v + 2 ^ (t.bits - 1)) % 2 ^ t.bits - 2 ^ (t.bits - 1)
  else v % 2 ^ t.bits

/-- The cast `( t ) v`. -/
def cCast (t : CIntType) (v : CValue) : CValue := ⟨t, convertTo t v.val⟩

/-- Integer promotion (C11 6.3.1.1p2): a type narrower than `int` becomes
`int`, which represents all its values; other types are unchanged. -/
def promote (t : CIntType) : CIntType :=
  if t.bits < c_int.bits then c_int else t

/-- Usual arithmetic conversions (C11 6.3.1.8) on two integer types, with the
conversion rank read off the width. -/
def usualArith (a b : CIntType) : CIntType :=
  let a := promote a
  let b := promote b
  if a.isSigned = b.isSigned then (if b.bits ≤ a.bits then a else b)
  else
    let u := if a.isSigned then b else a
    let s := if a.isSigned then a else b
    if s.bits ≤ u.bits then u else s

/-- The operator `~`: the operand is promoted, the result has the promoted
type and every bit of it inverted. -/
def cBitNot (v : CValue) : CValue :=
  let t := promote v.ty
  let x := convertTo t v.val
  ⟨t, if t.isSigned then -x - 1 else 2 ^ t.bits - 1 - x⟩

/-- The operator `==`: both operands are converted to their common type. -/
def cEq (a b : CValue) : Bool :=
  let t := usualArith a.ty b.ty
  decide (convertTo t a.val = convertTo t b.val)

/-- Source: `#define portMAX_DELAY    (~ ( TickType_t ) 0U)`, for the given `TickType_t`. -/
def portMAX_DELAY (TickType_t : CIntType) : CValue :=
  cBitNot (cCast TickType_t ⟨c_uint, 0⟩)

/-- A variable of type `t` holding `n`. -/
def tickVar (t : CIntType) (n : Nat) : CValue := ⟨t, (n : Int)⟩

/-! ## Build-time configuration -/

/-- The values of `TICK_TYPE_WIDTH_16_BITS`, `TICK_TYPE_WIDTH_32_BITS` and
`TICK_TYPE_WIDTH_64_BITS`, which the header uses and does not define. -/
structure TickWidthCodes where
  /-- Value of `TICK_TYPE_WIDTH_16_BITS`. -/
  w16 : Int
  /-- Value of `TICK_TYPE_WIDTH_32_BITS`. -/
  w32 : Int
  /-- Value of `TICK_TYPE_WIDTH_64_BITS`. -/
  w64 : Int
deriving DecidableEq, Repr

/-- The two `#error` directives of the header. -/
inductive ConfigError where
  /-- Message `configTICK_TYPE_WIDTH_IN_BITS set to unsupported tick type width.` -/
  | unsupportedTickWidth
  /-- Message `configUSE_PORT_OPTIMISED_TASK_SELECTION can only be set to 1 when
  configMAX_PRIORITIES is less than or equal to 32.` -/
  | tooManyPriorities
deriving DecidableEq, Repr

/-- The `#if` / `#elif` chain that defines `TickType_t`. -/
def TickType_t (codes : TickWidthCodes) (configTICK_TYPE_WIDTH_IN_BITS : Int) :
    Except ConfigError CIntType :=
  if configTICK_TYPE_WIDTH_IN_BITS = codes.w16 then .ok uint16_t
  else if configTICK_TYPE_WIDTH_IN_BITS = codes.w32 then .ok uint32_t
  else if configTICK_TYPE_WIDTH_IN_BITS = codes.w64 then .ok uint64_t
  else .error .unsupportedTickWidth

/-- A recursive lock as the kernel understands it: the owning core, if any,
and how many times it holds the lock. -/
structure LockState where
  /-- the core holding the lock -/
  owner : Option Nat
  /-- the number of acquisitions not yet released -/
  count : Nat
deriving DecidableEq, Repr

/-- The state the critical-section and lock macros are meant to act on.  The
header declares no variable for any of it. -/
structure PortState where
  /-- critical nesting depth -/
  criticalNesting : Nat
  /-- whether interrupts (preemption) are enabled -/
  interruptsEnabled : Bool
  /-- the TASK lock -/
  taskLock : LockState
  /-- the ISR lock -/
  isrLock : LockState
deriving DecidableEq, Repr

/-- The state with nothing locked. -/
def PortState.unlocked : PortState := ⟨0, true, ⟨none, 0⟩, ⟨none, 0⟩⟩

/-- Source: `#define portDISABLE_INTERRUPTS()    do {} while( 0 )` -/
def portDISABLE_INTERRUPTS (s : PortState) : PortState := s

/-- Source: `#define portENABLE_INTERRUPTS()     do {} while( 0 )` -/
def portENABLE_INTERRUPTS (s : PortState) : PortState := s

/-- Source: `#define portENTER_CRITICAL()    do {} while( 0 )`, the definition under
`configNUMBER_OF_CORES == 1`. -/
def portENTER_CRITICAL (s : PortState) : PortState := s

/-- Source: `#define portEXIT_CRITICAL()     do {} while( 0 )`, the definition under
`configNUMBER_OF_CORES == 1`. -/
def portEXIT_CRITICAL (s : PortState) : PortState := s

/-- A call of one of the single-core macros. -/
inductive CriticalCall where
  /-- Call `portENTER_CRITICAL()`. -/
  | enter
  /-- Call `portEXIT_CRITICAL()`. -/
  | exit
  /-- Call `portDISABLE_INTERRUPTS()`. -/
  | disable
  /-- Call `portENABLE_INTERRUPTS()`. -/
  | enable
deriving DecidableEq, Repr

/-- The state after one call. -/
def CriticalCall.apply : CriticalCall → PortState → PortState
  | .enter, s => portENTER_CRITICAL s
  | .exit, s => portEXIT_CRITICAL s
  | .disable, s => portDISABLE_INTERRUPTS s
  | .enable, s => portENABLE_INTERRUPTS s

/-- The state after a sequence of calls, first call first. -/
def runCritical (calls : List CriticalCall) (s : PortState) : PortState :=
  calls.foldl (fun acc c => c.apply acc) s

/-- Source: `#define portGET_CORE_ID()                0`, under the comment
`Return the core ID on which the code is running.`  The argument is the core
that executes the call; the expansion does not depend on it. -/
def portGET_CORE_ID (_runningCore : Nat) : Nat := 0

/-- Source: `#define portGET_TASK_LOCK( xCoreID )     do {} while( 0 )`.  The result is
the state in which the caller proceeds; `none` would be a caller that waits. -/
def portGET_TASK_LOCK (_xCoreID : Nat) (s : PortState) : Option PortState := some s

/-- Source: `#define portRELEASE_TASK_LOCK( xCoreID ) do {} while( 0 )` -/
def portRELEASE_TASK_LOCK (_xCoreID : Nat) (s : PortState) : Option PortState := some s

/-- Source: `#define portGET_ISR_LOCK( xCoreID )      do {} while( 0 )` -/
def portGET_ISR_LOCK (_xCoreID : Nat) (s : PortState) : Option PortState := some s

/-- Source: `#define portRELEASE_ISR_LOCK( xCoreID )  do {} while( 0 )` -/
def portRELEASE_ISR_LOCK (_xCoreID : Nat) (s : PortState) : Option PortState := some s

/-- A call of one of the lock macros by a core. -/
inductive LockCall where
  /-- Call `portGET_TASK_LOCK( c )`. -/
  | getTask (c : Nat)
  /-- Call `portRELEASE_TASK_LOCK( c )`. -/
  | releaseTask (c : Nat)
  /-- Call `portGET_ISR_LOCK( c )`. -/
  | getIsr (c : Nat)
  /-- Call `portRELEASE_ISR_LOCK( c )`. -/
  | releaseIsr (c : Nat)
deriving DecidableEq, Repr

/-- The state after one lock call, `none` when the caller does not proceed. -/
def LockCall.apply : LockCall → PortState → Option PortState
  | .getTask c, s => portGET_TASK_LOCK c s
  | .releaseTask c, s => portRELEASE_TASK_LOCK c s
  | .getIsr c, s => portGET_ISR_LOCK c s
  | .releaseIsr c, s => portRELEASE_ISR_LOCK c s

/-- The state after a sequence of lock calls, `none` as soon as one of them
does not proceed. -/
def runLocks : List LockCall → PortState → Option PortState
  | [], s => some s
  | c :: cs, s =>
    match c.apply s with
    | some s1 => runLocks cs s1
    | none => none

/-! ## Bit-level lemmas -/

theorem testBit_oneULShl (T : Target) (p i : Nat) :
    (oneULShl T p).testBit i = (decide (i < T.ulongBits) && decide (p = i)) := by
  simp [oneULShl, Nat.one_shiftLeft, Nat.testBit_two_pow]

theorem oneULShl_lt (T : Target) (p : Nat) : oneULShl T p < 2 ^ T.ulongBits :=
  Nat.mod_lt _ (Nat.two_pow_pos _)

theorem testBit_notOneULShl (T : Target) (p i : Nat) :
    (notOneULShl T p).testBit i = (decide (i < T.ulongBits) && !decide (p = i)) := by
  unfold notOneULShl
  rw [Nat.sub_sub, Nat.add_comm 1, Nat.testBit_two_pow_sub_succ (oneULShl_lt T p),
    testBit_oneULShl]
  by_cases h1 : i < T.ulongBits <;> simp [h1]

theorem testBit_record (T : Target) (p b i : Nat) :
    (portRECORD_READY_PRIORITY T p b).testBit i =
      (decide (i < T.bitmapBits) &&
        (b.testBit i || (decide (i < T.ulongBits) && decide (p = i)))) := by
  simp [portRECORD_READY_PRIORITY, testBit_oneULShl]

theorem testBit_reset (T : Target) (p b i : Nat) :
    (portRESET_READY_PRIORITY T p b).testBit i =
      (decide (i < T.bitmapBits) &&
        (b.testBit i && (decide (i < T.ulongBits) && !decide (p = i)))) := by
  simp [portRESET_READY_PRIORITY, testBit_notOneULShl]

theorem testBit_imp_lt {b w i : Nat} (hb : b < 2 ^ w) (h : b.testBit i = true) : i < w := by
  by_contra hc
  have hle : w ≤ i := Nat.le_of_not_lt hc
  have : b < 2 ^ i := lt_of_lt_of_le hb (Nat.pow_le_pow_right (by decide) hle)
  rw [Nat.testBit_lt_two_pow this] at h
  exact Bool.noConfusion h

/-- What `clzFrom` finds in a nonzero value below `2 ^ n`. -/
theorem clzFrom_spec (n x : Nat) (hx : x ≠ 0) (hlt : x < 2 ^ n) :
    clzFrom n x < n ∧ x.testBit (n - 1 - clzFrom n x) = true ∧
      ∀ j, n - 1 - clzFrom n x < j → x.testBit j = false := by
  induction n with
  | zero =>
    exfalso
    simp at hlt
    exact hx hlt
  | succ n ih =>
    by_cases hb : x.testBit n = true
    · have hc : clzFrom (n + 1) x = 0 := by simp [clzFrom, hb]
      rw [hc]
      refine ⟨Nat.succ_pos n, by simpa using hb, ?_⟩
      intro j hj
      apply Nat.testBit_lt_two_pow
      exact lt_of_lt_of_le hlt (Nat.pow_le_pow_right (by decide) (by omega))
    · have hb2 : x.testBit n = false := by simpa using hb
      have hc : clzFrom (n + 1) x = clzFrom n x + 1 := by simp [clzFrom, hb2]
      have hlt2 : x < 2 ^ n := by
        apply Nat.lt_pow_two_of_testBit
        intro i hi
        rcases Nat.eq_or_lt_of_le hi with h | h
        · rw [← h]; exact hb2
        · apply Nat.testBit_lt_two_pow
          exact lt_of_lt_of_le hlt (Nat.pow_le_pow_right (by decide) (by omega))
      obtain ⟨h1, h2, h3⟩ := ih hlt2
      rw [hc]
      have he : n + 1 - 1 - (clzFrom n x + 1) = n - 1 - clzFrom n x := by omega
      rw [he]
      exact ⟨by omega, h2, h3⟩

/-- The value `portGET_HIGHEST_PRIORITY` stores, in terms of `clzFrom`. -/
theorem highest_eq (T : Target) (b : Nat) (hT : 5 ≤ T.topBits) (hb : b ≠ 0)
    (hlt : b < 2 ^ 32) :
    portGET_HIGHEST_PRIORITY T b = some (31 - clzFrom 32 b) ∧ clzFrom 32 b < 32 := by
  have hs := clzFrom_spec 32 b hb hlt
  have hmod : b % 2 ^ 32 = b := Nat.mod_eq_of_lt hlt
  have hc : clzFrom 32 b < 32 := hs.1
  have h32 : (2 : Nat) ^ 5 ≤ 2 ^ T.topBits := Nat.pow_le_pow_right (by decide) hT
  refine ⟨?_, hc⟩
  simp only [portGET_HIGHEST_PRIORITY, builtin_clz, INT_BITS, hmod, hb, if_false,
    Option.map_some']
  congr 1
  have e1 : clzFrom 32 b % 2 ^ 32 = clzFrom 32 b := Nat.mod_eq_of_lt (by omega)
  rw [e1]
  have e2 : (31 + 2 ^ 32 - clzFrom 32 b) % 2 ^ 32 = 31 - clzFrom 32 b := by omega
  rw [e2]
  apply Nat.mod_eq_of_lt
  have : 31 - clzFrom 32 b < 2 ^ 5 := by norm_num; omega
  omega

/-! ## Properties of the bitmap macros -/

/-- The index stored by `portGET_HIGHEST_PRIORITY` is that of the most
significant set bit. -/
theorem highest_is_msb (T : Target) (b : Nat) (hT : 5 ≤ T.topBits)
    (hb : b ≠ 0) (hlt : b < 2 ^ 32) :
    ∃ i, portGET_HIGHEST_PRIORITY T b = some i ∧ i ≤ 31 ∧ b.testBit i = true ∧
      ∀ j, i < j → b.testBit j = false := by
  obtain ⟨h1, h2⟩ := highest_eq T b hT hb hlt
  obtain ⟨_, h3, h4⟩ := clzFrom_spec 32 b hb hlt
  exact ⟨31 - clzFrom 32 b, h1, by omega, h3, h4⟩

/-- C1: for every nonzero bitmap `b` that fits in 32 bits,
`portGET_HIGHEST_PRIORITY` (31 minus the count of leading zeros of `b`) stores
an index `i` with `i ≤ 31`, bit `i` of `b` set, and no bit `j > i` of `b` set.
(The variable receiving the index has at least 5 bits.) -/
theorem portGET_HIGHEST_PRIORITY_msb (T : Target) (b : Nat) (hT : 5 ≤ T.topBits)
    (hb : b ≠ 0) (hlt : b < 2 ^ 32) :
    ∃ i, portGET_HIGHEST_PRIORITY T b = some i ∧ i ≤ 31 ∧ b.testBit i = true ∧
      ∀ j, i < j → b.testBit j = false :=
  highest_is_msb T b hT hb hlt

theorem portGET_HIGHEST_PRIORITY_msb_witness :
    ∃ i, portGET_HIGHEST_PRIORITY portTarget 0x24 = some i ∧ i ≤ 31 ∧
      (0x24 : Nat).testBit i = true ∧ ∀ j, i < j → (0x24 : Nat).testBit j = false :=
  portGET_HIGHEST_PRIORITY_msb portTarget 0x24 (by decide) (by decide) (by decide)

/-- Supporting fact for C3: in a bitmap lvalue of at least 32 bits, recording
a priority below 32 sets its bit, keeps every other bit, and is idempotent. -/
theorem record_spec_of_wide (T : Target) (p b : Nat) (hL : 32 ≤ T.ulongBits)
    (hw : 32 ≤ T.bitmapBits) (hb : b < 2 ^ T.bitmapBits) (hp : p < 32) :
    (portRECORD_READY_PRIORITY T p b).testBit p = true ∧
      (∀ j, j ≠ p → (portRECORD_READY_PRIORITY T p b).testBit j = b.testBit j) ∧
      portRECORD_READY_PRIORITY T p (portRECORD_READY_PRIORITY T p b) =
        portRECORD_READY_PRIORITY T p b := by
  refine ⟨?_, ?_, ?_⟩
  · rw [testBit_record]
    have h1 : p < T.bitmapBits := by omega
    have h2 : p < T.ulongBits := by omega
    simp [h1, h2]
  · intro j hj
    rw [testBit_record]
    have hne : ¬ p = j := fun h => hj h.symm
    by_cases hbj : b.testBit j = true
    · have := testBit_imp_lt hb hbj
      simp [hbj, this]
    · simp [hbj, hne]
  · apply Nat.eq_of_testBit_eq
    intro i
    simp only [testBit_record]
    by_cases h1 : i < T.bitmapBits <;> simp [h1]

/-- C3, evaluated where it fails: with the bitmap stored in the port's 8-bit
`UBaseType_t`, recording priority 8 in the empty bitmap stores 0 again, and bit
8 of the stored bitmap is clear, whatever the width of `unsigned long`. -/
theorem portRECORD_READY_PRIORITY_ubase_drops_bit8 (L t : Nat) :
    portRECORD_READY_PRIORITY ⟨L, UBaseType_t_BITS, t⟩ 8 0 = 0 ∧
      (portRECORD_READY_PRIORITY ⟨L, UBaseType_t_BITS, t⟩ 8 0).testBit 8 = false := by
  have h : portRECORD_READY_PRIORITY ⟨L, UBaseType_t_BITS, t⟩ 8 0 = 0 := by
    apply Nat.eq_of_testBit_eq
    intro i
    rw [testBit_record]
    by_cases h1 : i < 8
    · have h2 : ¬ 8 = i := by omega
      simp [h2]
    · simp [UBaseType_t_BITS, h1]
  exact ⟨h, by rw [h]; simp⟩

/-- C4: for every priority `p` (the valid ones, `p < 32`, among them) and every
value `b` of the bitmap lvalue (no wider than `unsigned long`),
`portRESET_READY_PRIORITY( p, b )` leaves bit `p` clear, every other bit as in
`b`, and a second application changes nothing. -/
theorem portRESET_READY_PRIORITY_spec (T : Target) (p b : Nat)
    (hw : T.bitmapBits ≤ T.ulongBits) (hb : b < 2 ^ T.bitmapBits) (_hp : p < 32) :
    (portRESET_READY_PRIORITY T p b).testBit p = false ∧
      (∀ j, j ≠ p → (portRESET_READY_PRIORITY T p b).testBit j = b.testBit j) ∧
      portRESET_READY_PRIORITY T p (portRESET_READY_PRIORITY T p b) =
        portRESET_READY_PRIORITY T p b := by
  refine ⟨?_, ?_, ?_⟩
  · rw [testBit_reset]
    simp
  · intro j hj
    rw [testBit_reset]
    have hne : ¬ p = j := fun h => hj h.symm
    by_cases hbj : b.testBit j = true
    · have h1 := testBit_imp_lt hb hbj
      have h2 : j < T.ulongBits := by omega
      simp [hbj, h1, h2, hne]
    · simp [hbj]
  · apply Nat.eq_of_testBit_eq
    intro i
    simp only [testBit_reset]
    by_cases h1 : i < T.bitmapBits <;> simp [h1]

theorem portRESET_READY_PRIORITY_spec_witness :
    (portRESET_READY_PRIORITY portTarget 5 0x24).testBit 5 = false ∧
      (∀ j, j ≠ 5 → (portRESET_READY_PRIORITY portTarget 5 0x24).testBit j =
        (0x24 : Nat).testBit j) ∧
      portRESET_READY_PRIORITY portTarget 5 (portRESET_READY_PRIORITY portTarget 5 0x24) =
        portRESET_READY_PRIORITY portTarget 5 0x24 :=
  portRESET_READY_PRIORITY_spec portTarget 5 0x24 (by decide) (by decide) (by decide)

/-- C5 as stated fails: from the empty bitmap, resetting priority 0 and then
recording it leaves the bitmap 1, not the bitmap before both calls. -/
theorem reset_then_record_not_identity :
    portRECORD_READY_PRIORITY portTarget 0 (portRESET_READY_PRIORITY portTarget 0 0) ≠ 0 := by
  decide

/-- C5, amended: for every value `b` of the bitmap lvalue (no wider than
`unsigned long`) and every priority `p`, reset of `p` followed by record of `p`
keeps every bit other than `p`, leaves bit `p` set exactly when `p` lies within
the bitmap width, and therefore leaves the bitmap identical to `b` whenever bit
`p` was set in `b`. -/
theorem reset_then_record_spec (T : Target) (p b : Nat)
    (hw : T.bitmapBits ≤ T.ulongBits) (hb : b < 2 ^ T.bitmapBits) (_hp : p < 32) :
    (∀ j, j ≠ p →
        (portRECORD_READY_PRIORITY T p (portRESET_READY_PRIORITY T p b)).testBit j =
          b.testBit j) ∧
      (portRECORD_READY_PRIORITY T p (portRESET_READY_PRIORITY T p b)).testBit p =
        decide (p < T.bitmapBits) ∧
      (b.testBit p = true →
        portRECORD_READY_PRIORITY T p (portRESET_READY_PRIORITY T p b) = b) := by
  have hbits : ∀ j, j ≠ p →
      (portRECORD_READY_PRIORITY T p (portRESET_READY_PRIORITY T p b)).testBit j =
        b.testBit j := by
    intro j hj
    rw [testBit_record, testBit_reset]
    have hne : ¬ p = j := fun h => hj h.symm
    by_cases hbj : b.testBit j = true
    · have h1 := testBit_imp_lt hb hbj
      have h2 : j < T.ulongBits := by omega
      simp [hbj, h1, h2, hne]
    · simp [hbj, hne]
  have hpbit : (portRECORD_READY_PRIORITY T p (portRESET_READY_PRIORITY T p b)).testBit p =
      decide (p < T.bitmapBits) := by
    rw [testBit_record, testBit_reset]
    by_cases h1 : p < T.bitmapBits
    · have h2 : p < T.ulongBits := by omega
      simp [h1, h2]
    · simp [h1]
  refine ⟨hbits, hpbit, ?_⟩
  intro hset
  apply Nat.eq_of_testBit_eq
  intro i
  by_cases hi : i = p
  · subst hi
    rw [hpbit, hset]
    simpa using testBit_imp_lt hb hset
  · exact hbits i hi

theorem reset_then_record_spec_witness :
    (∀ j, j ≠ 5 →
        (portRECORD_READY_PRIORITY portTarget 5 (portRESET_READY_PRIORITY portTarget 5 0x24)).testBit j =
          (0x24 : Nat).testBit j) ∧
      (portRECORD_READY_PRIORITY portTarget 5 (portRESET_READY_PRIORITY portTarget 5 0x24)).testBit 5 =
        decide (5 < portTarget.bitmapBits) ∧
      ((0x24 : Nat).testBit 5 = true →
        portRECORD_READY_PRIORITY portTarget 5 (portRESET_READY_PRIORITY portTarget 5 0x24) = 0x24) :=
  reset_then_record_spec portTarget 5 0x24 (by decide) (by decide) (by decide)

/-! ## Order independence -/

theorem record_record_comm (T : Target) (p q b : Nat) :
    portRECORD_READY_PRIORITY T p (portRECORD_READY_PRIORITY T q b) =
      portRECORD_READY_PRIORITY T q (portRECORD_READY_PRIORITY T p b) := by
  apply Nat.eq_of_testBit_eq
  intro i
  simp only [testBit_record]
  by_cases h1 : i < T.bitmapBits <;> by_cases h2 : b.testBit i = true <;>
    by_cases h3 : p = i <;> by_cases h4 : q = i <;> simp [h1, h2, h3, h4]

theorem reset_reset_comm (T : Target) (p q b : Nat) :
    portRESET_READY_PRIORITY T p (portRESET_READY_PRIORITY T q b) =
      portRESET_READY_PRIORITY T q (portRESET_READY_PRIORITY T p b) := by
  apply Nat.eq_of_testBit_eq
  intro i
  simp only [testBit_reset]
  by_cases h1 : i < T.bitmapBits <;> by_cases h2 : b.testBit i = true <;>
    by_cases h3 : p = i <;> by_cases h4 : q = i <;> simp [h1, h2, h3, h4]

theorem record_reset_comm (T : Target) (p q b : Nat) (hpq : p ≠ q) :
    portRECORD_READY_PRIORITY T p (portRESET_READY_PRIORITY T q b) =
      portRESET_READY_PRIORITY T q (portRECORD_READY_PRIORITY T p b) := by
  apply Nat.eq_of_testBit_eq
  intro i
  simp only [testBit_record, testBit_reset]
  by_cases h3 : p = i
  · have h4 : ¬ q = i := fun h => hpq (h3.trans h.symm)
    by_cases h1 : i < T.bitmapBits <;> by_cases h2 : b.testBit i = true <;>
      by_cases h5 : i < T.ulongBits <;> simp [h1, h2, h3, h4, h5]
  · by_cases h1 : i < T.bitmapBits <;> by_cases h2 : b.testBit i = true <;>
      by_cases h4 : q = i <;> simp [h1, h2, h3, h4]

/-- Two calls on different priorities commute. -/
theorem apply_comm (T : Target) (a c : ReadyOp) (b : Nat) (h : a.priority ≠ c.priority) :
    a.apply T (c.apply T b) = c.apply T (a.apply T b) := by
  cases a with
  | record p =>
    cases c with
    | record q => exact record_record_comm T p q b
    | reset q => exact record_reset_comm T p q b h
  | reset p =>
    cases c with
    | record q => exact (record_reset_comm T q p b (fun e => h e.symm)).symm
    | reset q => exact reset_reset_comm T p q b

/-- A call moves past a run of calls on other priorities. -/
theorem runOps_apply_comm (T : Target) (op : ReadyOp) (ys : List ReadyOp)
    (h : ∀ y ∈ ys, y.priority ≠ op.priority) (b : Nat) :
    runOps T ys (op.apply T b) = op.apply T (runOps T ys b) := by
  induction ys generalizing b with
  | nil => rfl
  | cons y ys ih =>
    have hy : y.priority ≠ op.priority := h y (List.mem_cons_self _ _)
    have hys : ∀ z ∈ ys, z.priority ≠ op.priority :=
      fun z hz => h z (List.mem_cons_of_mem _ hz)
    show runOps T ys (y.apply T (op.apply T b)) = op.apply T (runOps T ys (y.apply T b))
    rw [apply_comm T y op b hy, ih hys]

theorem runOps_append (T : Target) (xs ys : List ReadyOp) (b : Nat) :
    runOps T (xs ++ ys) b = runOps T ys (runOps T xs b) := by
  simp [runOps, List.foldl_append]

/-- A list whose calls on priority `p` begin with `op` splits at that call. -/
theorem split_at_first (p : Nat) (op : ReadyOp) (rest : List ReadyOp) :
    ∀ ops : List ReadyOp, opsOn p ops = op :: rest →
      ∃ ys zs, ops = ys ++ op :: zs ∧ (∀ y ∈ ys, y.priority ≠ p) ∧ opsOn p zs = rest := by
  intro ops
  induction ops with
  | nil => intro h; simp [opsOn] at h
  | cons a as ih =>
    intro h
    by_cases ha : a.priority = p
    · have h2 : opsOn p (a :: as) = a :: opsOn p as := by simp [opsOn, ha]
      rw [h2] at h
      injection h with h3 h4
      exact ⟨[], as, by simp [h3], by simp, h4⟩
    · have h2 : opsOn p (a :: as) = opsOn p as := by simp [opsOn, ha]
      rw [h2] at h
      obtain ⟨ys, zs, e1, e2, e3⟩ := ih h
      refine ⟨a :: ys, zs, by simp [e1], ?_, e3⟩
      intro y hy
      rcases List.mem_cons.1 hy with rfl | hy
      · exact ha
      · exact e2 y hy

theorem opsOn_append (i : Nat) (xs ys : List ReadyOp) :
    opsOn i (xs ++ ys) = opsOn i xs ++ opsOn i ys := by
  simp [opsOn]

theorem opsOn_eq_nil_of_ne (i : Nat) (ys : List ReadyOp) (h : ∀ y ∈ ys, y.priority ≠ i) :
    opsOn i ys = [] := by
  simp only [opsOn, List.filter_eq_nil_iff]
  intro a ha
  simpa using h a ha

/-- Two lists of calls with the same calls, in the same order, on every single
priority end in the same bitmap. -/
theorem runOps_eq_of_opsOn_eq (T : Target) :
    ∀ (ops1 ops2 : List ReadyOp) (b : Nat), (∀ i, opsOn i ops1 = opsOn i ops2) →
      runOps T ops1 b = runOps T ops2 b := by
  intro ops1
  induction ops1 with
  | nil =>
    intro ops2 b h
    have hnil : ops2 = [] := by
      cases ops2 with
      | nil => rfl
      | cons a as =>
        have := h a.priority
        simp [opsOn] at this
    rw [hnil]
  | cons op xs ih =>
    intro ops2 b h
    have hp : opsOn op.priority ops2 = op :: opsOn op.priority xs := by
      rw [← h op.priority]; simp [opsOn]
    obtain ⟨ys, zs, e1, e2, e3⟩ := split_at_first op.priority op _ ops2 hp
    have hrest : ∀ i, opsOn i xs = opsOn i (ys ++ zs) := by
      intro i
      by_cases hi : i = op.priority
      · subst hi
        rw [opsOn_append, opsOn_eq_nil_of_ne _ ys e2, e3]; rfl
      · have h1 := h i
        have hne : ¬ op.priority = i := fun e => hi e.symm
        rw [e1] at h1
        have h2 : opsOn i (op :: xs) = opsOn i xs := by simp [opsOn, hne]
        have h3 : opsOn i (ys ++ op :: zs) = opsOn i (ys ++ zs) := by
          simp [opsOn, hne]
        rw [← h2, h1, h3]
    have hstep : runOps T ops2 b = runOps T (ys ++ zs) (op.apply T b) := by
      rw [e1, runOps_append, runOps_append]
      show runOps T zs (op.apply T (runOps T ys b)) = _
      rw [runOps_apply_comm T op ys e2 b]
    rw [hstep]
    exact ih (ys ++ zs) (op.apply T b) hrest

/-- A list of record calls and any reordering of it end in the same bitmap. -/
theorem runOps_record_perm (T : Target) (ps qs : List Nat) (h : ps.Perm qs) (b : Nat) :
    runOps T (ps.map ReadyOp.record) b = runOps T (qs.map ReadyOp.record) b := by
  induction h generalizing b with
  | nil => rfl
  | cons x _ ih => exact ih (portRECORD_READY_PRIORITY T x b)
  | swap x y l =>
    show runOps T (l.map ReadyOp.record)
        (portRECORD_READY_PRIORITY T x (portRECORD_READY_PRIORITY T y b)) =
      runOps T (l.map ReadyOp.record)
        (portRECORD_READY_PRIORITY T y (portRECORD_READY_PRIORITY T x b))
    rw [record_record_comm]
  | trans _ _ ih1 ih2 => exact (ih1 b).trans (ih2 b)

/-- C6: the bitmap, and with it the value `portGET_HIGHEST_PRIORITY` yields,
does not depend on the order of the calls.  From every starting bitmap `b`:
two records commute, two resets commute, a record of `p` and a reset of
`q ≠ p` commute; every reordering of a list of record calls ends in the same
bitmap; and two lists of record/reset calls that hold, for every priority, the
same calls on that priority in the same order end in the same bitmap and the
same highest priority. -/
theorem bitmap_order_independent (T : Target) (b : Nat) :
    (∀ p q, portRECORD_READY_PRIORITY T p (portRECORD_READY_PRIORITY T q b) =
        portRECORD_READY_PRIORITY T q (portRECORD_READY_PRIORITY T p b)) ∧
    (∀ p q, portRESET_READY_PRIORITY T p (portRESET_READY_PRIORITY T q b) =
        portRESET_READY_PRIORITY T q (portRESET_READY_PRIORITY T p b)) ∧
    (∀ p q, p ≠ q → portRECORD_READY_PRIORITY T p (portRESET_READY_PRIORITY T q b) =
        portRESET_READY_PRIORITY T q (portRECORD_READY_PRIORITY T p b)) ∧
    (∀ ps qs : List Nat, ps.Perm qs →
        runOps T (ps.map ReadyOp.record) b = runOps T (qs.map ReadyOp.record) b) ∧
    (∀ ops1 ops2 : List ReadyOp, (∀ i, opsOn i ops1 = opsOn i ops2) →
        runOps T ops1 b = runOps T ops2 b ∧
        portGET_HIGHEST_PRIORITY T (runOps T ops1 b) =
          portGET_HIGHEST_PRIORITY T (runOps T ops2 b)) := by
  refine ⟨fun p q => record_record_comm T p q b, fun p q => reset_reset_comm T p q b,
    fun p q h => record_reset_comm T p q b h,
    fun ps qs h => runOps_record_perm T ps qs h b, ?_⟩
  intro ops1 ops2 h
  have e := runOps_eq_of_opsOn_eq T ops1 ops2 b h
  exact ⟨e, by rw [e]⟩

theorem bitmap_order_independent_witness :
    (2 ≠ 5 ∧ portRECORD_READY_PRIORITY portTarget 2 (portRESET_READY_PRIORITY portTarget 5 0x24) =
        portRESET_READY_PRIORITY portTarget 5 (portRECORD_READY_PRIORITY portTarget 2 0x24)) ∧
    (List.Perm [2, 5, 9] [9, 2, 5] ∧
      runOps wordTarget ([2, 5, 9].map ReadyOp.record) 0 =
        runOps wordTarget ([9, 2, 5].map ReadyOp.record) 0) ∧
    ((∀ i, opsOn i [ReadyOp.record 2, ReadyOp.reset 5, ReadyOp.record 5] =
        opsOn i [ReadyOp.reset 5, ReadyOp.record 2, ReadyOp.record 5]) ∧
      runOps wordTarget [ReadyOp.record 2, ReadyOp.reset 5, ReadyOp.record 5] 0 =
        runOps wordTarget [ReadyOp.reset 5, ReadyOp.record 2, ReadyOp.record 5] 0) := by
  have hperm : List.Perm [2, 5, 9] [9, 2, 5] := by decide
  have hord : ∀ i, opsOn i [ReadyOp.record 2, ReadyOp.reset 5, ReadyOp.record 5] =
      opsOn i [ReadyOp.reset 5, ReadyOp.record 2, ReadyOp.record 5] := by
    intro i
    by_cases h2 : 2 = i <;> by_cases h5 : 5 = i <;>
      simp [opsOn, List.filter_cons, ReadyOp.priority, h2, h5]
    omega
  exact ⟨⟨by decide, (bitmap_order_independent portTarget 0x24).2.2.1 2 5 (by decide)⟩,
    ⟨hperm, (bitmap_order_independent wordTarget 0).2.2.2.1 _ _ hperm⟩,
    ⟨hord, ((bitmap_order_independent wordTarget 0).2.2.2.2 _ _ hord).1⟩⟩

/-! ## The bitmap follows the calls -/

theorem runOps_concat (T : Target) (xs : List ReadyOp) (op : ReadyOp) (b : Nat) :
    runOps T (xs ++ [op]) b = op.apply T (runOps T xs b) := by
  simp [runOps, List.foldl_append]

theorem lastOp_concat (i : Nat) (xs : List ReadyOp) (op : ReadyOp) :
    lastOp i (xs ++ [op]) = if op.priority = i then some op else lastOp i xs := by
  unfold lastOp
  rw [opsOn_append]
  by_cases h : op.priority = i
  · have h1 : opsOn i [op] = [op] := by simp [opsOn, h]
    rw [h1, List.getLast?_concat, if_pos h]
  · have h1 : opsOn i [op] = [] := by simp [opsOn, h]
    rw [h1, List.append_nil, if_neg h]

/-- A call on a valid priority keeps a 32-bit bitmap within 32 bits. -/
theorem apply_lt (T : Target) (op : ReadyOp) (b : Nat) (hb : b < 2 ^ 32)
    (hp : op.priority < 32) : op.apply T b < 2 ^ 32 := by
  apply Nat.lt_pow_two_of_testBit
  intro i hi
  have hbi : b.testBit i = false :=
    Nat.testBit_lt_two_pow (lt_of_lt_of_le hb (Nat.pow_le_pow_right (by decide) hi))
  cases op with
  | record p =>
    have hne : ¬ p = i := by simp only [ReadyOp.priority] at hp; omega
    simp [ReadyOp.apply, testBit_record, hbi, hne]
  | reset p => simp [ReadyOp.apply, testBit_reset, hbi]

theorem runOps_lt (T : Target) (ops : List ReadyOp) (hv : ∀ op ∈ ops, op.priority < 32) :
    ∀ b, b < 2 ^ 32 → runOps T ops b < 2 ^ 32 := by
  induction ops with
  | nil => intro b hb; exact hb
  | cons a as ih =>
    intro b hb
    exact ih (fun op h => hv op (List.mem_cons_of_mem _ h)) _
      (apply_lt T a b hb (hv a (List.mem_cons_self _ _)))

/-- Starting from the empty bitmap, with a bitmap lvalue of at least 32 bits,
bit `i` is set exactly when the last call on priority `i` was a record. -/
theorem testBit_runOps_zero (T : Target) (hL : 32 ≤ T.ulongBits) (hw : 32 ≤ T.bitmapBits)
    (ops : List ReadyOp) (hv : ∀ op ∈ ops, op.priority < 32) (i : Nat) :
    (runOps T ops 0).testBit i = true ↔ currentlyRecorded i ops := by
  unfold currentlyRecorded
  induction ops using List.reverseRecOn with
  | nil => simp [runOps, lastOp, opsOn]
  | append_singleton xs op ih =>
    have hvx : ∀ o ∈ xs, o.priority < 32 :=
      fun o h => hv o (List.mem_append_left _ h)
    have hop : op.priority < 32 := hv op (by simp)
    have hx : runOps T xs 0 < 2 ^ 32 := runOps_lt T xs hvx 0 (by decide)
    have hbit : ∀ j, (runOps T xs 0).testBit j = true → j < 32 :=
      fun j h => testBit_imp_lt hx h
    rw [runOps_concat, lastOp_concat]
    specialize ih hvx
    cases op with
    | record p =>
      simp only [ReadyOp.priority] at hop ⊢
      by_cases hpi : p = i
      · subst hpi
        have h1 : p < T.bitmapBits := by omega
        have h2 : p < T.ulongBits := by omega
        simp [ReadyOp.apply, testBit_record, h1, h2]
      · rw [if_neg hpi, ← ih]
        simp only [ReadyOp.apply, testBit_record]
        by_cases hb : (runOps T xs 0).testBit i = true
        · have := hbit i hb
          have h1 : i < T.bitmapBits := by omega
          simp [hb, h1]
        · simp [hb, hpi]
    | reset p =>
      simp only [ReadyOp.priority] at hop ⊢
      by_cases hpi : p = i
      · subst hpi
        simp [ReadyOp.apply, testBit_reset]
      · rw [if_neg hpi, ← ih]
        simp only [ReadyOp.apply, testBit_reset]
        by_cases hb : (runOps T xs 0).testBit i = true
        · have := hbit i hb
          have h1 : i < T.bitmapBits := by omega
          have h2 : i < T.ulongBits := by omega
          simp [hb, h1, h2, hpi]
        · simp [hb]

/-- With a priority currently recorded, `portGET_HIGHEST_PRIORITY` yields the
largest currently recorded priority. -/
theorem highest_runOps_zero (T : Target) (hL : 32 ≤ T.ulongBits) (hw : 32 ≤ T.bitmapBits)
    (hT : 5 ≤ T.topBits) (ops : List ReadyOp) (hv : ∀ op ∈ ops, op.priority < 32)
    (hne : ∃ i, currentlyRecorded i ops) :
    ∃ m, portGET_HIGHEST_PRIORITY T (runOps T ops 0) = some m ∧ m ≤ 31 ∧
      currentlyRecorded m ops ∧ ∀ j, currentlyRecorded j ops → j ≤ m := by
  obtain ⟨i, hi⟩ := hne
  have hbi := (testBit_runOps_zero T hL hw ops hv i).2 hi
  have hnz : runOps T ops 0 ≠ 0 := by
    intro h0
    rw [h0] at hbi
    simp at hbi
  have hlt : runOps T ops 0 < 2 ^ 32 := runOps_lt T ops hv 0 (by decide)
  obtain ⟨m, h1, h2, h3, h4⟩ := highest_is_msb T _ hT hnz hlt
  refine ⟨m, h1, h2, (testBit_runOps_zero T hL hw ops hv m).1 h3, ?_⟩
  intro j hj
  have hbj := (testBit_runOps_zero T hL hw ops hv j).2 hj
  by_contra hc
  have := h4 j (by omega)
  rw [this] at hbj
  exact Bool.noConfusion hbj

/-- The calls of the worked example: record 2, 5, 5, 9, then reset 5. -/
theorem example_calls_highest (T : Target) (hL : 32 ≤ T.ulongBits)
    (hw : 32 ≤ T.bitmapBits) (hT : 5 ≤ T.topBits) (ops : List ReadyOp) (k : Nat)
    (hv : ∀ op ∈ ops, op.priority < 32)
    (hk : ∀ m, m ≤ 31 → currentlyRecorded m ops →
      (∀ j, j ≤ 31 → currentlyRecorded j ops → j ≤ m) → m = k)
    (hne : ∃ i, currentlyRecorded i ops) :
    portGET_HIGHEST_PRIORITY T (runOps T ops 0) = some k := by
  obtain ⟨m, h1, h2, h3, h4⟩ := highest_runOps_zero T hL hw hT ops hv hne
  have := hk m h2 h3 (fun j _ hj => h4 j hj)
  rw [← this]; exact h1

/-- Supporting fact for C2, the macros on a wide lvalue: starting from the
empty bitmap, in a bitmap lvalue of at least 32 bits,
after every finite sequence of record and reset calls on priorities below 32,
bit `i` of the bitmap is set iff the last call on priority `i` was a record;
hence, whenever a priority is currently recorded, `portGET_HIGHEST_PRIORITY`
yields the largest currently recorded priority.  Recording 2, 5, 5, 9 and then
resetting 5 gives 9; resetting 9 after that gives 2. -/
theorem bitmap_tracks_last_call (T : Target) (ops : List ReadyOp)
    (hL : 32 ≤ T.ulongBits) (hw : 32 ≤ T.bitmapBits) (hT : 5 ≤ T.topBits)
    (hv : ∀ op ∈ ops, op.priority < 32) :
    (∀ i, (runOps T ops 0).testBit i = true ↔ currentlyRecorded i ops) ∧
    ((∃ i, currentlyRecorded i ops) →
      ∃ m, portGET_HIGHEST_PRIORITY T (runOps T ops 0) = some m ∧
        currentlyRecorded m ops ∧ ∀ j, currentlyRecorded j ops → j ≤ m) ∧
    portGET_HIGHEST_PRIORITY T
      (runOps T [.record 2, .record 5, .record 5, .record 9, .reset 5] 0) = some 9 ∧
    portGET_HIGHEST_PRIORITY T
      (runOps T [.record 2, .record 5, .record 5, .record 9, .reset 5, .reset 9] 0) =
        some 2 := by
  refine ⟨fun i => testBit_runOps_zero T hL hw ops hv i, ?_, ?_, ?_⟩
  · intro hne
    obtain ⟨m, h1, _, h3, h4⟩ := highest_runOps_zero T hL hw hT ops hv hne
    exact ⟨m, h1, h3, h4⟩
  · exact example_calls_highest T hL hw hT _ 9 (by decide) (by decide) ⟨9, by decide⟩
  · exact example_calls_highest T hL hw hT _ 2 (by decide) (by decide) ⟨2, by decide⟩

theorem bitmap_tracks_last_call_witness :
    (∀ i, (runOps wordTarget [.record 2, .record 5, .reset 5] 0).testBit i = true ↔
      currentlyRecorded i [.record 2, .record 5, .reset 5]) ∧
    ((∃ i, currentlyRecorded i [.record 2, .record 5, .reset 5]) →
      ∃ m, portGET_HIGHEST_PRIORITY wordTarget
          (runOps wordTarget [.record 2, .record 5, .reset 5] 0) = some m ∧
        currentlyRecorded m [.record 2, .record 5, .reset 5] ∧
        ∀ j, currentlyRecorded j [.record 2, .record 5, .reset 5] → j ≤ m) ∧
    portGET_HIGHEST_PRIORITY wordTarget
      (runOps wordTarget [.record 2, .record 5, .record 5, .record 9, .reset 5] 0) =
        some 9 ∧
    portGET_HIGHEST_PRIORITY wordTarget
      (runOps wordTarget [.record 2, .record 5, .record 5, .record 9, .reset 5, .reset 9] 0) =
        some 2 :=
  bitmap_tracks_last_call wordTarget [.record 2, .record 5, .reset 5]
    (by decide) (by decide) (by decide) (by decide)

/-- C2, evaluated where it fails: with the bitmap stored in the port's 8-bit
`UBaseType_t`, the last call on priority 9 in `[record 9]` is a record and yet
bit 9 of the bitmap is clear; and after recording 2, 5, 5, 9 and resetting 5,
priority 9 is currently recorded while `portGET_HIGHEST_PRIORITY` yields 2,
not 9. -/
theorem bitmap_ubase_loses_priority9 :
    (currentlyRecorded 9 [.record 9] ∧
      (runOps portTarget [.record 9] 0).testBit 9 = false) ∧
    (currentlyRecorded 9 [.record 2, .record 5, .record 5, .record 9, .reset 5] ∧
      runOps portTarget [.record 2, .record 5, .record 5, .record 9, .reset 5] 0 = 4 ∧
      portGET_HIGHEST_PRIORITY portTarget
        (runOps portTarget [.record 2, .record 5, .record 5, .record 9, .reset 5] 0) =
          some 2) := by
  decide

/-! ## `portMAX_DELAY` -/

theorem portMAX_DELAY_uint16 : portMAX_DELAY uint16_t = ⟨c_int, -1⟩ := by
  simp [portMAX_DELAY, cBitNot, cCast, promote, convertTo, uint16_t, c_int, c_uint, INT_BITS]

theorem portMAX_DELAY_uint32 : portMAX_DELAY uint32_t = ⟨uint32_t, 2 ^ 32 - 1⟩ := by
  simp [portMAX_DELAY, cBitNot, cCast, promote, convertTo, uint32_t, c_int, c_uint, INT_BITS]

theorem portMAX_DELAY_uint64 : portMAX_DELAY uint64_t = ⟨uint64_t, 2 ^ 64 - 1⟩ := by
  simp [portMAX_DELAY, cBitNot, cCast, promote, convertTo, uint64_t, c_int, c_uint, INT_BITS]

/-- Supporting fact for C7: with 32-bit ticks `portMAX_DELAY` is the
`uint32_t` value `2 ^ 32 - 1`, and a tick variable compares equal to it exactly
when it holds that value. -/
theorem portMAX_DELAY_32 (n : Nat) (hn : n < 2 ^ 32) :
    cEq (tickVar uint32_t n) (portMAX_DELAY uint32_t) = true ↔ n = 2 ^ 32 - 1 := by
  have ht : usualArith uint32_t uint32_t = uint32_t := by decide
  have hc : ∀ v : Int, convertTo uint32_t v = v % 4294967296 := by
    intro v; simp [convertTo, uint32_t]
  rw [portMAX_DELAY_uint32]
  simp only [cEq, tickVar, ht, hc, decide_eq_true_eq]
  omega

/-- Supporting fact for C7: with 64-bit ticks `portMAX_DELAY` is the
`uint64_t` value `2 ^ 64 - 1`, and a tick variable compares equal to it exactly
when it holds that value. -/
theorem portMAX_DELAY_64 (n : Nat) (hn : n < 2 ^ 64) :
    cEq (tickVar uint64_t n) (portMAX_DELAY uint64_t) = true ↔ n = 2 ^ 64 - 1 := by
  have ht : usualArith uint64_t uint64_t = uint64_t := by decide
  have hc : ∀ v : Int, convertTo uint64_t v = v % 18446744073709551616 := by
    intro v; simp [convertTo, uint64_t]
  rw [portMAX_DELAY_uint64]
  simp only [cEq, tickVar, ht, hc, decide_eq_true_eq]
  omega

/-- Supporting fact for C7: with 16-bit ticks no tick value compares equal to
`portMAX_DELAY`. -/
theorem portMAX_DELAY_16_no_value (n : Nat) (hn : n < 2 ^ 16) :
    cEq (tickVar uint16_t n) (portMAX_DELAY uint16_t) = false := by
  have ht : usualArith uint16_t c_int = c_int := by decide
  have hc : ∀ v : Int, convertTo c_int v = (v + 2147483648) % 4294967296 - 2147483648 := by
    intro v; simp [convertTo, c_int, INT_BITS]
  rw [portMAX_DELAY_uint16]
  simp only [cEq, tickVar, ht, hc, decide_eq_false_iff_not]
  omega

/-- C7, evaluated where it fails: with 16-bit ticks the operand of `~` is
promoted to `int`, so `portMAX_DELAY` is the `int` value `-1`, and a
`TickType_t` variable holding `2 ^ 16 - 1 = 65535` does not compare equal to
it. -/
theorem portMAX_DELAY_16_is_minus_one :
    portMAX_DELAY uint16_t = ⟨c_int, -1⟩ ∧
      cEq (tickVar uint16_t 65535) (portMAX_DELAY uint16_t) = false :=
  ⟨portMAX_DELAY_uint16, portMAX_DELAY_16_no_value 65535 (by decide)⟩

/-! ## Critical sections and locks -/

/-- C8 as stated fails: from the unlocked state, `portENTER_CRITICAL()` does
not increment the nesting depth, and after enter, enter, exit interrupts are
still enabled and the depth is still 0: nothing is locked. -/
theorem critical_section_not_locked :
    (portENTER_CRITICAL PortState.unlocked).criticalNesting ≠
        PortState.unlocked.criticalNesting + 1 ∧
      (runCritical [.enter, .enter, .exit] PortState.unlocked).interruptsEnabled = true ∧
      (runCritical [.enter, .enter, .exit] PortState.unlocked).criticalNesting = 0 := by
  decide

/-- C8, amended: in the single-core configuration `portENTER_CRITICAL`,
`portEXIT_CRITICAL`, `portDISABLE_INTERRUPTS` and `portENABLE_INTERRUPTS` expand
to empty statements: every sequence of calls, nested correctly or not, leaves
the state, nesting depth and interrupt enablement included, as it was. -/
theorem critical_calls_leave_state (calls : List CriticalCall) (s : PortState) :
    runCritical calls s = s ∧
      (runCritical calls s).criticalNesting = s.criticalNesting ∧
      (runCritical calls s).interruptsEnabled = s.interruptsEnabled := by
  have h : runCritical calls s = s := by
    induction calls generalizing s with
    | nil => rfl
    | cons c cs ih =>
      show runCritical cs (c.apply s) = s
      have hc : c.apply s = s := by cases c <;> rfl
      rw [hc]; exact ih s
  rw [h]
  exact ⟨rfl, rfl, rfl⟩

/-- Every sequence of lock calls proceeds to its end and leaves the state as
it was. -/
theorem runLocks_eq_some (calls : List LockCall) (s : PortState) :
    runLocks calls s = some s := by
  induction calls generalizing s with
  | nil => rfl
  | cons a as ih =>
    have ha : a.apply s = some s := by cases a <;> rfl
    simp only [runLocks, ha]
    exact ih s

/-- Supporting fact for C9: a core that acquires a lock twice is not stopped
at the second acquire, whatever core id it passes and whatever the state. -/
theorem reacquire_proceeds (s : PortState) (c : Nat) :
    runLocks [.getTask c, .getTask c] s = some s ∧
      runLocks [.getIsr c, .getIsr c] s = some s :=
  ⟨runLocks_eq_some _ s, runLocks_eq_some _ s⟩

/-- C9, evaluated where it fails: core 0 acquires the TASK lock twice and
releases it once, each time passing `portGET_CORE_ID()`; the acquire that
core 1 then makes, passing its own `portGET_CORE_ID()`, proceeds, in a state
that is still the unlocked one (as it is after the two acquires).  The same
holds of the ISR lock, and `portGET_CORE_ID()` yields on core 1 what it yields
on core 0. -/
theorem lock_taken_by_second_core :
    runLocks [.getTask (portGET_CORE_ID 0), .getTask (portGET_CORE_ID 0),
        .releaseTask (portGET_CORE_ID 0), .getTask (portGET_CORE_ID 1)]
      PortState.unlocked = some PortState.unlocked ∧
    runLocks [.getIsr (portGET_CORE_ID 0), .getIsr (portGET_CORE_ID 0),
        .releaseIsr (portGET_CORE_ID 0), .getIsr (portGET_CORE_ID 1)]
      PortState.unlocked = some PortState.unlocked ∧
    runLocks [.getTask (portGET_CORE_ID 0), .getTask (portGET_CORE_ID 0)]
      PortState.unlocked = some PortState.unlocked ∧
    portGET_CORE_ID 1 = portGET_CORE_ID 0 := by
  decide

/-! ## Build-time configuration -/

end PortMacro
